import Mathlib

/-!
Verification of the typing-platform game engine (`internal/core` of the
typing-platform repository).

Modelling conventions for the shallow embedding:
* Go strings are modelled as lists of characters (`Str`); the words and typed
  buffers of this game are ASCII, where byte indexing and character indexing
  agree, and `strings.ToLower` agrees with character-wise `Char.toLower`.
* Go `float64` values (`ScrollSpeed`, `ScrollAccumulator`, elapsed seconds)
  are modelled as exact rationals; `int(x)` truncation of the nonnegative
  quantities involved is the floor.
* Go integer division truncates toward zero, which is `Int.tdiv`.
* The wall clock (`time.Since(StartTime).Seconds()`) is an oracle argument
  `e` handed to the operations that read it; the RNG behind `GetRandomWord`
  is an oracle: a word supply `ws : Nat → Str` for the word draws of one
  call, and a draw index `r` with `Intn n` modelled as `r % n`.
* The `Renderer` never mutates the game, so `Render`'s state effect is just
  the simulation tick; the produced frame string is not modelled.  The file
  `Logger` only writes debug output and is dropped.
-/

namespace Core

/-- Go strings, modelled as lists of characters. -/
abbrev Str := List Char

/-- Character-wise `strings.ToLower`. -/
def strToLower (s : Str) : Str := s.map Char.toLower

/-- The `GameState` enum of the source. -/
inductive GameState where
  | menu
  | playing
  | paused
  | gameOver
deriving DecidableEq, Repr

/-- The `Platform` struct of the source. -/
structure Platform where
  x : Int
  y : Int
  width : Int
  word : Str
  typed : Str
  complete : Bool
deriving DecidableEq, Repr, Inhabited

/-- The `Player` struct of the source; the platform index is a `Nat` since the
source only ever stores loop indices or 0 in it. -/
structure Player where
  x : Int
  y : Int
  platform : Nat
deriving DecidableEq, Repr, Inhabited

/-- The `Game` struct of the source, restricted to the engine fields (the
renderer, logger and start timestamp are handled as described in the header). -/
structure Game where
  state : GameState
  width : Int
  height : Int
  player : Player
  platforms : List Platform
  score : Int
  wordsTyped : Nat
  charsTyped : Nat
  shouldExit : Bool
  scrollSpeed : ℚ
  scrollOffset : ℚ
  scrollAccumulator : ℚ
deriving DecidableEq, Repr

/-- The word-length filter of `GetRandomWord`'s difficulty switch
(words.go lines 45-63). -/
def difficultyAllows (difficulty : Int) (wordLen : Nat) : Bool :=
  if difficulty = 1 then decide (3 ≤ wordLen) && decide (wordLen ≤ 5)
  else if difficulty = 2 then decide (4 ≤ wordLen) && decide (wordLen ≤ 8)
  else if difficulty = 3 then decide (6 ≤ wordLen)
  else true

/-- `GetRandomWord` (words.go lines 41-72); the uniform draw `rng.Intn n` is
modelled as `r % n` for an arbitrary oracle value `r`. -/
def getRandomWord (words : List Str) (difficulty : Int) (r : Nat) : Str :=
  let availableWords := words.filter (fun w => difficultyAllows difficulty w.length)
  let availableWords := if availableWords.length = 0 then words else availableWords
  strToLower (availableWords.getD (r % availableWords.length) [])

/-- `IsWordComplete` (words.go lines 81-84). -/
def isWordComplete (word typed : Str) : Bool :=
  strToLower word == strToLower typed

/-- `IsValidChar` (words.go lines 86-94). -/
def isValidChar (word typed : Str) (char : Char) : Bool :=
  if word.length ≤ typed.length then false
  else Char.toLower char == (strToLower word).getD typed.length (Char.ofNat 0)

/-- `isAlphanumeric` (game.go lines 400-402). -/
def isAlphanumeric (r : Char) : Bool :=
  (decide ('a' ≤ r) && decide (r ≤ 'z')) || (decide ('A' ≤ r) && decide (r ≤ 'Z'))
    || (decide ('0' ≤ r) && decide (r ≤ '9'))

/-- One iteration of the platform loop of `generateInitialPlatforms`
(game.go lines 290-305), carrying (platforms so far, currentY). -/
def initialPlatformStep (g : Game) (ws : Nat → Str) (acc : List Platform × Int)
    (i : Nat) : List Platform × Int :=
  let xPos : Int := 20 + Int.tdiv (((i % 4 : Nat) : Int) * (g.width - 40)) 4
  let currentY : Int := acc.2 - (10 + ((i % 3 : Nat) : Int))
  let platform : Platform :=
    { x := xPos, y := currentY, width := 15 + ((i % 3 : Nat) : Int) * 10,
      word := ws i, typed := [], complete := false }
  (acc.1 ++ [platform], currentY)

/-- `generateInitialPlatforms` (game.go lines 273-306); the successive
`GetRandomWord` results are supplied by the oracle `ws`. -/
def generateInitialPlatforms (g : Game) (ws : Nat → Str) : Game :=
  let startPlatform : Platform :=
    { x := Int.tdiv g.width 2 - 10, y := Int.tdiv g.height 4, width := 20,
      word := ws 0, typed := [], complete := false }
  let res := (List.range' 1 14).foldl (initialPlatformStep g ws)
    ([startPlatform], startPlatform.y)
  { g with platforms := res.1 }

/-- `generateMorePlatforms` (game.go lines 308-342). -/
def generateMorePlatforms (g : Game) (ws : Nat → Str) : Game :=
  if g.platforms.length = 0 then g
  else
    let highestY := g.platforms.foldl (fun hy p => if p.y < hy then p.y else hy)
      (g.platforms.getD 0 default).y
    if highestY > -200 then
      let newPlatforms := (List.range 8).map (fun i =>
        { x := 30 + Int.tdiv (((i % 5 : Nat) : Int) * (g.width - 60)) 5,
          y := highestY - 60 - (i : Int) * 45,
          width := 12 + ((i % 4 : Nat) : Int) * 6,
          word := ws i, typed := [], complete := false })
      { g with platforms := g.platforms ++ newPlatforms }
    else g

/-- `reset` (game.go lines 81-97); the start timestamp is wall clock and elapsed
time is an oracle of `completeWord` instead. -/
def reset (g : Game) (ws : Nat → Str) : Game :=
  let g1 := { g with score := 0, wordsTyped := 0, charsTyped := 0,
                     scrollOffset := 0, scrollAccumulator := 0,
                     player := { x := Int.tdiv g.width 2,
                                 y := Int.tdiv g.height 4 - 1, platform := 0 } }
  generateInitialPlatforms g1 ws

/-- `NewGame` followed by `Start(width, height)` (game.go lines 10-34). -/
def startGame (width height : Int) (ws : Nat → Str) : Game :=
  let base : Game :=
    { state := .menu, width := width, height := height,
      player := { x := 0, y := 0, platform := 0 }, platforms := [],
      score := 0, wordsTyped := 0, charsTyped := 0, shouldExit := false,
      scrollSpeed := 5, scrollOffset := 0, scrollAccumulator := 0 }
  reset base ws

/-- The scan loop of `jumpToNextPlatform` (game.go lines 200-208): find the
incomplete platform with the largest y strictly below `currentY`; Go's `-1`
sentinel becomes `none`. -/
def findNextLoop (all : List Platform) (currentY : Int) :
    Nat → List Platform → Option Nat → Option Nat
  | _, [], best => best
  | i, p :: rest, best =>
    if p.y < currentY && !p.complete then
      match best with
      | none => findNextLoop all currentY (i + 1) rest (some i)
      | some j =>
        if p.y > (all.getD j default).y then findNextLoop all currentY (i + 1) rest (some i)
        else findNextLoop all currentY (i + 1) rest (some j)
    else findNextLoop all currentY (i + 1) rest best

/-- Result of the scan over the whole platform list. -/
def findNextPlatform (all : List Platform) (currentY : Int) : Option Nat :=
  findNextLoop all currentY 0 all none

/-- `jumpToNextPlatform` (game.go lines 196-219). -/
def jumpToNextPlatform (g : Game) (ws : Nat → Str) : Game :=
  let currentY := (g.platforms.getD g.player.platform default).y
  match findNextPlatform g.platforms currentY with
  | some nextPlatformIndex =>
    let platform := g.platforms.getD nextPlatformIndex default
    { g with player := { x := platform.x + Int.tdiv platform.width 2,
                         y := platform.y - 1, platform := nextPlatformIndex } }
  | none => generateMorePlatforms g ws

/-- `completeWord` (game.go lines 179-194); `e` is the elapsed-seconds oracle;
Go's `int()` truncation of the nonnegative speed bonus is the floor. -/
def completeWord (g : Game) (e : ℚ) (ws : Nat → Str) : Game :=
  let platform := g.platforms.getD g.player.platform default
  let g1 := { g with
    platforms := g.platforms.set g.player.platform { platform with complete := true },
    wordsTyped := g.wordsTyped + 1 }
  let g2 := { g1 with score := g1.score + (platform.word.length : Int) * 10 }
  let g3 := if e > 0 then
      { g2 with score := g2.score + ⌊max 0 (100 - e / (g1.wordsTyped : ℚ))⌋ }
    else g2
  jumpToNextPlatform g3 ws

/-- `handleTyping` (game.go lines 147-165). -/
def handleTyping (g : Game) (key : Char) (e : ℚ) (ws : Nat → Str) : Game :=
  if g.platforms.length = 0 then g
  else
    let currentPlatform := g.platforms.getD g.player.platform default
    if isValidChar currentPlatform.word currentPlatform.typed key then
      let typed1 := currentPlatform.typed ++ [key]
      let g1 := { g with
        platforms := g.platforms.set g.player.platform { currentPlatform with typed := typed1 },
        charsTyped := g.charsTyped + 1 }
      if isWordComplete currentPlatform.word typed1 then completeWord g1 e ws else g1
    else g

/-- `handleBackspace` (game.go lines 167-177); Go's byte slicing `[:len-1]` is
`dropLast` on the character list. -/
def handleBackspace (g : Game) : Game :=
  if g.platforms.length = 0 then g
  else
    let currentPlatform := g.platforms.getD g.player.platform default
    if currentPlatform.typed.length > 0 then
      let popped : Platform := { currentPlatform with typed := currentPlatform.typed.dropLast }
      { g with platforms := g.platforms.set g.player.platform popped }
    else g

/-- The loop of `cleanupPlatforms` (game.go lines 349-363); the carried state is
`(newPlatforms, playerPlatformFound, newPlayerPlatform)`. -/
def cleanupLoop (thr : Int) (playerIdx : Nat) :
    Nat → List Platform → List Platform × Bool × Nat → List Platform × Bool × Nat
  | _, [], acc => acc
  | i, p :: rest, (kept, found, newIdx) =>
    if p.y < thr then
      let kept1 := kept ++ [p]
      if i = playerIdx then cleanupLoop thr playerIdx (i + 1) rest (kept1, true, kept1.length - 1)
      else cleanupLoop thr playerIdx (i + 1) rest (kept1, found, newIdx)
    else cleanupLoop thr playerIdx (i + 1) rest (kept, found, newIdx)

/-- `cleanupPlatforms` (game.go lines 344-373). -/
def cleanupPlatforms (g : Game) : Game :=
  let bottomThreshold := g.height + 100
  let res := cleanupLoop bottomThreshold g.player.platform 0 g.platforms ([], false, 0)
  let g1 := { g with platforms := res.1 }
  if res.2.1 then { g1 with player := { g1.player with platform := res.2.2 } }
  else if 0 < g1.platforms.length then { g1 with player := { g1.player with platform := 0 } }
  else g1

/-- The scroll-accumulator step of `updateGameLogic` (game.go lines 224-235):
new accumulator and integer pixel movement of one fixed 1/60 s tick. -/
def pixelStep (scrollSpeed acc : ℚ) : ℚ × Int :=
  let scrollDelta := scrollSpeed * (1 / 60)
  let acc2 := acc + scrollDelta
  if acc2 ≥ 1 then (acc2 - (⌊acc2⌋ : ℚ), ⌊acc2⌋) else (acc2, 0)

/-- The platform move and player recompute of `updateGameLogic`
(game.go lines 224-257). -/
def scrollMove (g : Game) : Game :=
  let res := pixelStep g.scrollSpeed g.scrollAccumulator
  let pixelMovement := res.2
  let g1 : Game := { g with scrollAccumulator := res.1 }
  let g2 : Game := if 0 < pixelMovement then
      { g1 with platforms := g1.platforms.map (fun p => { p with y := p.y + pixelMovement }) }
    else g1
  if decide (0 < g2.platforms.length) && decide (g2.player.platform < g2.platforms.length) then
    let platform := g2.platforms.getD g2.player.platform default
    { g2 with player := { g2.player with
        x := platform.x + Int.tdiv platform.width 2, y := platform.y - 1 } }
  else g2

/-- `updateGameLogic` (game.go lines 221-271). -/
def updateGameLogic (g : Game) (ws : Nat → Str) : Game :=
  let g1 := scrollMove g
  if g1.player.y ≥ g1.height - 3 then { g1 with state := .gameOver }
  else cleanupPlatforms (generateMorePlatforms g1 ws)

/-- `processMenuInput` (game.go lines 99-110). -/
def processMenuInput (g : Game) (key : Char) (ws : Nat → Str) : Game :=
  if key = ' ' then reset { g with state := .playing } ws
  else if key = 'q' ∨ key = 'Q' then { g with shouldExit := true }
  else if key = Char.ofNat 27 then { g with shouldExit := true }
  else g

/-- `processGameInput` (game.go lines 112-124). -/
def processGameInput (g : Game) (key : Char) (e : ℚ) (ws : Nat → Str) : Game :=
  if key = Char.ofNat 27 then { g with state := .paused }
  else if key = Char.ofNat 8 ∨ key = Char.ofNat 127 then handleBackspace g
  else if isAlphanumeric key then handleTyping g key e ws
  else g

/-- `processPauseInput` (game.go lines 126-134). -/
def processPauseInput (g : Game) (key : Char) : Game :=
  if key = Char.ofNat 27 then { g with state := .playing }
  else if key = 'q' ∨ key = 'Q' then { g with shouldExit := true }
  else g

/-- `processGameOverInput` (game.go lines 136-145). -/
def processGameOverInput (g : Game) (key : Char) (ws : Nat → Str) : Game :=
  if key = ' ' then reset { g with state := .playing } ws
  else if key = 'q' ∨ key = 'Q' then { g with shouldExit := true }
  else g

/-- `ProcessInput` (game.go lines 47-59). -/
def processInput (g : Game) (key : Char) (e : ℚ) (ws : Nat → Str) : Game :=
  match g.state with
  | .menu => processMenuInput g key ws
  | .playing => processGameInput g key e ws
  | .paused => processPauseInput g key
  | .gameOver => processGameOverInput g key ws

/-- The state effect of `Render` (game.go lines 62-72): the simulation tick runs
only while playing; the frame string of the pure renderer is not modelled. -/
def renderStep (g : Game) (ws : Nat → Str) : Game :=
  if g.state = .playing then updateGameLogic g ws else g

/-- Engine states reachable from a started game through the public interface,
with arbitrary oracle outcomes at every step. -/
inductive Reachable : Game → Prop where
  | start (width height : Int) (ws : Nat → Str) : Reachable (startGame width height ws)
  | input (g : Game) (key : Char) (e : ℚ) (ws : Nat → Str) :
      Reachable g → Reachable (processInput g key e ws)
  | render (g : Game) (ws : Nat → Str) : Reachable g → Reachable (renderStep g ws)

/-- `N` iterations of the fixed-step scroll tick from a zero accumulator,
returning the accumulator and the summed pixel movement. -/
def scrollIter (scrollSpeed : ℚ) : Nat → ℚ × Int
  | 0 => (0, 0)
  | n + 1 =>
    let prev := scrollIter scrollSpeed n
    let res := pixelStep scrollSpeed prev.1
    (res.1, prev.2 + res.2)

/-- A fixed single-letter word supply, used for concrete evaluations. -/
def wsA : Nat → Str := fun _ => ['a']

/-- One public input step with the zero-elapsed-time oracle and supply wsA. -/
def stepA (g : Game) (key : Char) : Game := processInput g key 0 wsA

/-! Helper lemmas about which fields the operations touch. -/

theorem generateMorePlatforms_eq (g : Game) (ws : Nat → Str) :
    ∃ ps, generateMorePlatforms g ws = { g with platforms := ps } := by
  unfold generateMorePlatforms
  by_cases h0 : g.platforms.length = 0
  · exact ⟨g.platforms, by simp [h0]⟩
  · simp only [h0, if_false]
    split
    · exact ⟨_, rfl⟩
    · exact ⟨g.platforms, rfl⟩

theorem generateMorePlatforms_player (g : Game) (ws : Nat → Str) :
    (generateMorePlatforms g ws).player = g.player := by
  obtain ⟨ps, h⟩ := generateMorePlatforms_eq g ws
  rw [h]

theorem generateMorePlatforms_grows (g : Game) (ws : Nat → Str) :
    ∃ extra, (generateMorePlatforms g ws).platforms = g.platforms ++ extra := by
  unfold generateMorePlatforms
  by_cases h0 : g.platforms.length = 0
  · exact ⟨[], by simp [h0]⟩
  · simp only [h0, if_false]
    split
    · exact ⟨_, rfl⟩
    · exact ⟨[], by simp⟩

theorem jumpToNextPlatform_state (g : Game) (ws : Nat → Str) :
    (jumpToNextPlatform g ws).state = g.state := by
  unfold jumpToNextPlatform
  dsimp only
  split
  · rfl
  · obtain ⟨ps, h⟩ := generateMorePlatforms_eq g ws
    rw [h]

theorem jumpToNextPlatform_shouldExit (g : Game) (ws : Nat → Str) :
    (jumpToNextPlatform g ws).shouldExit = g.shouldExit := by
  unfold jumpToNextPlatform
  dsimp only
  split
  · rfl
  · obtain ⟨ps, h⟩ := generateMorePlatforms_eq g ws
    rw [h]

theorem completeWord_state (g : Game) (e : ℚ) (ws : Nat → Str) :
    (completeWord g e ws).state = g.state := by
  unfold completeWord
  rw [jumpToNextPlatform_state]
  split <;> rfl

theorem completeWord_shouldExit (g : Game) (e : ℚ) (ws : Nat → Str) :
    (completeWord g e ws).shouldExit = g.shouldExit := by
  unfold completeWord
  rw [jumpToNextPlatform_shouldExit]
  split <;> rfl

theorem handleTyping_state (g : Game) (key : Char) (e : ℚ) (ws : Nat → Str) :
    (handleTyping g key e ws).state = g.state := by
  unfold handleTyping
  dsimp only
  split
  · rfl
  · split
    · split
      · rw [completeWord_state]
      · rfl
    · rfl

theorem handleTyping_shouldExit (g : Game) (key : Char) (e : ℚ) (ws : Nat → Str) :
    (handleTyping g key e ws).shouldExit = g.shouldExit := by
  unfold handleTyping
  dsimp only
  split
  · rfl
  · split
    · split
      · rw [completeWord_shouldExit]
      · rfl
    · rfl

theorem isAlphanumeric_not_control (c : Char) (h : isAlphanumeric c = true) :
    c ≠ Char.ofNat 27 ∧ c ≠ Char.ofNat 8 ∧ c ≠ Char.ofNat 127 := by
  refine ⟨?_, ?_, ?_⟩ <;> · intro he; subst he; revert h; decide

/-- C8: for every word, typed buffer and character, IsValidChar answers true
exactly when the lower-cased character matches the lower-cased character of the
word at index len(typed), and always answers false once the typed buffer is at
least as long as the word. -/
theorem isValidChar_spec (word typed : Str) (c : Char) :
    (typed.length < word.length →
      (isValidChar word typed c = true ↔
        Char.toLower c = (strToLower word).getD typed.length (Char.ofNat 0))) ∧
    (word.length ≤ typed.length → isValidChar word typed c = false) := by
  constructor
  · intro h
    rw [isValidChar, if_neg (by omega)]
    exact beq_iff_eq
  · intro h
    rw [isValidChar, if_pos h]

/-- Witness for C8 at word "ab", typed "a", candidate character 'B'. -/
theorem isValidChar_spec_witness :
    isValidChar ['a', 'b'] ['a'] 'B' = true :=
  ((isValidChar_spec ['a', 'b'] ['a'] 'B').1 (by decide)).mpr (by decide)

/-- C9: for a non-empty base list, any difficulty and any rng outcome, the word
returned is the lower-casing of a base word inside the difficulty band, except
that when no base word lies in the band it is the lower-casing of some element
of the unfiltered list. -/
theorem getRandomWord_spec (words : List Str) (difficulty : Int) (r : Nat)
    (hne : words ≠ []) :
    (∃ w ∈ words, difficultyAllows difficulty w.length = true ∧
        getRandomWord words difficulty r = strToLower w) ∨
    ((∀ w ∈ words, difficultyAllows difficulty w.length = false) ∧
      ∃ w ∈ words, getRandomWord words difficulty r = strToLower w) := by
  unfold getRandomWord
  by_cases hF : (words.filter (fun w => difficultyAllows difficulty w.length)).length = 0
  · right
    constructor
    · intro w hw
      have : words.filter (fun w => difficultyAllows difficulty w.length) = [] :=
        List.length_eq_zero.mp hF
      have := List.filter_eq_nil_iff.mp this w hw
      simpa using this
    · have hpos : 0 < words.length := List.length_pos.mpr hne
      have hlt : r % words.length < words.length := Nat.mod_lt _ hpos
      refine ⟨words[r % words.length], List.getElem_mem hlt, ?_⟩
      simp [hF, List.getD_eq_getElem?_getD, List.getElem?_eq_getElem hlt]
  · left
    have hpos : 0 < (words.filter (fun w => difficultyAllows difficulty w.length)).length :=
      Nat.pos_of_ne_zero hF
    have hlt : r % (words.filter (fun w => difficultyAllows difficulty w.length)).length <
        (words.filter (fun w => difficultyAllows difficulty w.length)).length :=
      Nat.mod_lt _ hpos
    have hmem := List.getElem_mem hlt
    have hmem2 := List.mem_filter.mp hmem
    refine ⟨_, hmem2.1, by simpa using hmem2.2, ?_⟩
    simp [hF, List.getD_eq_getElem?_getD, List.getElem?_eq_getElem hlt]

/-- Witness for C9: the spec's difficulty-1 catalog with rng outcome 6. -/
theorem getRandomWord_spec_witness :
    (∃ w ∈ [['g', 'o'], ['c', 'a', 't'], ['w', 'o', 'r', 'd'], ['h', 'e', 'l', 'l', 'o'],
        ['l', 'o', 'n', 'g', 'e', 'r'], ['t', 'e', 's', 't', 'i', 'n', 'g']],
        difficultyAllows 1 w.length = true ∧
        getRandomWord [['g', 'o'], ['c', 'a', 't'], ['w', 'o', 'r', 'd'], ['h', 'e', 'l', 'l', 'o'],
          ['l', 'o', 'n', 'g', 'e', 'r'], ['t', 'e', 's', 't', 'i', 'n', 'g']] 1 6 = strToLower w) ∨
    ((∀ w ∈ [['g', 'o'], ['c', 'a', 't'], ['w', 'o', 'r', 'd'], ['h', 'e', 'l', 'l', 'o'],
        ['l', 'o', 'n', 'g', 'e', 'r'], ['t', 'e', 's', 't', 'i', 'n', 'g']],
        difficultyAllows 1 w.length = false) ∧
      ∃ w ∈ [['g', 'o'], ['c', 'a', 't'], ['w', 'o', 'r', 'd'], ['h', 'e', 'l', 'l', 'o'],
        ['l', 'o', 'n', 'g', 'e', 'r'], ['t', 'e', 's', 't', 'i', 'n', 'g']],
        getRandomWord [['g', 'o'], ['c', 'a', 't'], ['w', 'o', 'r', 'd'], ['h', 'e', 'l', 'l', 'o'],
          ['l', 'o', 'n', 'g', 'e', 'r'], ['t', 'e', 's', 't', 'i', 'n', 'g']] 1 6 = strToLower w) :=
  getRandomWord_spec _ 1 6 (by decide)

/-- A concrete playing-state game used by witnesses. -/
def samplePlaying : Game :=
  { state := .playing, width := 80, height := 24,
    player := { x := 0, y := 0, platform := 0 },
    platforms := [{ x := 0, y := 5, width := 10, word := ['a', 'b'], typed := [],
                    complete := false }],
    score := 0, wordsTyped := 0, charsTyped := 0, shouldExit := false,
    scrollSpeed := 5, scrollOffset := 0, scrollAccumulator := 0 }

/-- A concrete paused-state game used by witnesses. -/
def samplePaused : Game :=
  { state := .paused, width := 80, height := 24,
    player := { x := 0, y := 0, platform := 0 }, platforms := [],
    score := 0, wordsTyped := 0, charsTyped := 0, shouldExit := false,
    scrollSpeed := 5, scrollOffset := 0, scrollAccumulator := 0 }

/-- C10: while playing, an alphanumeric key that is not the valid next character
of the word on the player's platform (or any alphanumeric key when the platform
list is empty) leaves the whole game state unchanged. -/
theorem invalid_key_no_change (g : Game) (c : Char) (e : ℚ) (ws : Nat → Str)
    (hstate : g.state = .playing) (halpha : isAlphanumeric c = true)
    (hinvalid : g.platforms = [] ∨
      isValidChar (g.platforms.getD g.player.platform default).word
        (g.platforms.getD g.player.platform default).typed c = false) :
    processInput g c e ws = g := by
  obtain ⟨h27, h8, h127⟩ := isAlphanumeric_not_control c halpha
  rw [List.getD_eq_getElem?_getD] at hinvalid
  rw [processInput]
  rw [hstate]
  rw [processGameInput, if_neg h27, if_neg (by tauto), if_pos halpha]
  rw [handleTyping]
  rcases hinvalid with hemp | hinv
  · rw [if_pos (by simp [hemp])]
  · by_cases h0 : g.platforms.length = 0
    · rw [if_pos h0]
    · rw [if_neg h0, if_neg (by simp [hinv])]

/-- Witness for C10: a concrete playing game where 'z' is not the next
character of the current word "ab". -/
theorem invalid_key_no_change_witness :
    processInput samplePlaying 'z' 0 wsA = samplePlaying :=
  invalid_key_no_change samplePlaying 'z' 0 wsA rfl (by decide) (Or.inr (by decide))

/-- C7: while playing, the key q (or Q) is treated as typing input: the exit
flag is untouched and the state stays Playing; while paused, q (or Q) sets the
exit flag and the state stays Paused. -/
theorem quit_key_by_state (g1 g2 : Game) (e : ℚ) (ws : Nat → Str)
    (h1 : g1.state = .playing) (h2 : g2.state = .paused) :
    ((processInput g1 'q' e ws).shouldExit = g1.shouldExit ∧
      (processInput g1 'q' e ws).state = .playing) ∧
    ((processInput g1 'Q' e ws).shouldExit = g1.shouldExit ∧
      (processInput g1 'Q' e ws).state = .playing) ∧
    ((processInput g2 'q' e ws).shouldExit = true ∧
      (processInput g2 'q' e ws).state = .paused) ∧
    ((processInput g2 'Q' e ws).shouldExit = true ∧
      (processInput g2 'Q' e ws).state = .paused) := by
  refine ⟨?_, ?_, ?_, ?_⟩
  · simp only [processInput, h1]
    rw [processGameInput, if_neg (by decide), if_neg (by decide), if_pos (by decide)]
    exact ⟨handleTyping_shouldExit g1 'q' e ws, by rw [handleTyping_state]; exact h1⟩
  · simp only [processInput, h1]
    rw [processGameInput, if_neg (by decide), if_neg (by decide), if_pos (by decide)]
    exact ⟨handleTyping_shouldExit g1 'Q' e ws, by rw [handleTyping_state]; exact h1⟩
  · simp only [processInput, h2]
    rw [processPauseInput, if_neg (by decide), if_pos (by decide)]
    exact ⟨rfl, h2⟩
  · simp only [processInput, h2]
    rw [processPauseInput, if_neg (by decide), if_pos (by decide)]
    exact ⟨rfl, h2⟩

/-- Witness for C7 on two concrete games, one playing and one paused. -/
theorem quit_key_by_state_witness :
    (processInput samplePlaying 'q' 0 wsA).shouldExit = samplePlaying.shouldExit ∧
    (processInput samplePaused 'q' 0 wsA).shouldExit = true :=
  ⟨(quit_key_by_state samplePlaying samplePaused 0 wsA rfl rfl).1.1,
    (quit_key_by_state samplePlaying samplePaused 0 wsA rfl rfl).2.2.1.1⟩

theorem pixelStep_nonneg (s a : ℚ) : 0 ≤ (pixelStep s a).2 := by
  rw [pixelStep]
  try dsimp only
  split
  · rename_i h
    have : (1 : Int) ≤ ⌊a + s * (1 / 60)⌋ := Int.le_floor.mpr (by exact_mod_cast h)
    omega
  · exact le_refl 0

theorem scrollIter_invariant (speed : ℚ) (hspeed : 0 < speed) (N : Nat) :
    0 ≤ (scrollIter speed N).1 ∧ (scrollIter speed N).1 < 1 ∧
      ((scrollIter speed N).2 : ℚ) = speed * N / 60 - (scrollIter speed N).1 := by
  induction N with
  | zero => simp [scrollIter]
  | succ n ih =>
    obtain ⟨h0, h1, hsum⟩ := ih
    have hpos : 0 < speed * (1 / 60) := by positivity
    rw [scrollIter]
    try dsimp only
    rw [pixelStep]
    try dsimp only
    by_cases hge : (scrollIter speed n).1 + speed * (1 / 60) ≥ 1
    · rw [if_pos hge]
      try dsimp only
      refine ⟨?_, ?_, ?_⟩
      · rw [Int.self_sub_floor]
        exact Int.fract_nonneg _
      · rw [Int.self_sub_floor]
        exact Int.fract_lt_one _
      · push_cast
        rw [hsum]
        ring
    · rw [if_neg hge]
      try dsimp only
      refine ⟨by linarith, by linarith [not_le.mp hge], ?_⟩
      push_cast
      rw [hsum]
      ring

theorem scrollMove_platform_moves (g : Game) (i : Nat) (hi : i < g.platforms.length) :
    ((scrollMove g).platforms.getD i default).y =
      (g.platforms.getD i default).y + (pixelStep g.scrollSpeed g.scrollAccumulator).2 := by
  have key : (scrollMove g).platforms =
      if 0 < (pixelStep g.scrollSpeed g.scrollAccumulator).2 then
        g.platforms.map (fun p =>
          { p with y := p.y + (pixelStep g.scrollSpeed g.scrollAccumulator).2 })
      else g.platforms := by
    rw [scrollMove]
    dsimp only
    split <;> split <;> rfl
  rw [key]
  split
  · rw [List.getD_eq_getElem?_getD, List.getD_eq_getElem?_getD,
      List.getElem?_eq_getElem (by simpa using hi), List.getElem?_eq_getElem hi]
    simp
  · rename_i h
    have : (pixelStep g.scrollSpeed g.scrollAccumulator).2 = 0 := by
      have := pixelStep_nonneg g.scrollSpeed g.scrollAccumulator
      omega
    rw [this, add_zero]

/-- C4: the fixed-step scroll is drift-free: starting from a zero accumulator,
after N ticks the summed pixel movement is within one pixel of
scrollSpeed * N / 60, and each tick of the game moves every platform down by
exactly the pixel movement the accumulator releases. -/
theorem scroll_drift_free (speed : ℚ) (hspeed : 0 < speed) (N : Nat) :
    |((scrollIter speed N).2 : ℚ) - speed * N / 60| < 1 ∧
    (∀ (g : Game) (i : Nat), i < g.platforms.length →
      ((scrollMove g).platforms.getD i default).y =
        (g.platforms.getD i default).y + (pixelStep g.scrollSpeed g.scrollAccumulator).2) := by
  obtain ⟨h0, h1, hsum⟩ := scrollIter_invariant speed hspeed N
  constructor
  · rw [hsum]
    rw [abs_sub_comm]
    rw [abs_of_nonneg (by linarith)]
    linarith
  · intro g i hi
    exact scrollMove_platform_moves g i hi

/-- Witness for C4 at scrollSpeed 5 over 3 ticks. -/
theorem scroll_drift_free_witness :
    |((scrollIter 5 3).2 : ℚ) - 5 * 3 / 60| < 1 :=
  (scroll_drift_free 5 (by norm_num) 3).1

theorem scrollMove_height (g : Game) : (scrollMove g).height = g.height := by
  rw [scrollMove]
  dsimp only
  split <;> split <;> rfl

/-- C5: while playing, when the recomputed player position after the scroll
move is at or past height - 3, the tick sets GameOver and returns with the
platform list exactly as the scroll move left it: no generation, no pruning. -/
theorem player_fell_game_over (g : Game) (ws : Nat → Str)
    (hstate : g.state = .playing)
    (hne : g.platforms ≠ [])
    (hidx : g.player.platform < g.platforms.length)
    (hy : (scrollMove g).player.y ≥ g.height - 3) :
    renderStep g ws = { scrollMove g with state := .gameOver } := by
  rw [renderStep, if_pos hstate, updateGameLogic]
  dsimp only
  rw [if_pos (by rw [scrollMove_height]; exact hy)]

/-- A concrete playing game whose player is about to fall off the screen. -/
def sampleFalling : Game :=
  { state := .playing, width := 80, height := 24,
    player := { x := 0, y := 0, platform := 0 },
    platforms := [{ x := 0, y := 25, width := 10, word := ['a', 'b'], typed := [],
                    complete := false }],
    score := 0, wordsTyped := 0, charsTyped := 0, shouldExit := false,
    scrollSpeed := 5, scrollOffset := 0, scrollAccumulator := 0 }

/-- Witness for C5 on sampleFalling. -/
theorem player_fell_game_over_witness :
    renderStep sampleFalling wsA = { scrollMove sampleFalling with state := .gameOver } :=
  player_fell_game_over sampleFalling wsA rfl (by decide) (by decide)
    (by norm_num [scrollMove, pixelStep, sampleFalling])

theorem cleanupLoop_fst (thr : Int) (pIdx : Nat) :
    ∀ (ps : List Platform) (i : Nat) (kept : List Platform) (f : Bool) (n : Nat),
      (cleanupLoop thr pIdx i ps (kept, f, n)).1 =
        kept ++ ps.filter (fun p => decide (p.y < thr)) := by
  intro ps
  induction ps with
  | nil => intro i kept f n; simp [cleanupLoop]
  | cons p rest ih =>
    intro i kept f n
    simp only [cleanupLoop]
    by_cases hp : p.y < thr
    · rw [if_pos hp]
      by_cases hi : i = pIdx
      · rw [if_pos hi, ih]
        simp [hp]
      · rw [if_neg hi, ih]
        simp [hp]
    · rw [if_neg hp, ih]
      simp [hp]

theorem cleanupLoop_snd_past (thr : Int) (pIdx : Nat) :
    ∀ (ps : List Platform) (i : Nat) (kept : List Platform) (f : Bool) (n : Nat),
      pIdx < i → (cleanupLoop thr pIdx i ps (kept, f, n)).2 = (f, n) := by
  intro ps
  induction ps with
  | nil => intro i kept f n _; simp [cleanupLoop]
  | cons p rest ih =>
    intro i kept f n hlt
    simp only [cleanupLoop]
    by_cases hp : p.y < thr
    · rw [if_pos hp, if_neg (by omega)]
      exact ih (i + 1) _ f n (by omega)
    · rw [if_neg hp]
      exact ih (i + 1) kept f n (by omega)

theorem cleanupLoop_snd_hit (thr : Int) (pIdx : Nat) :
    ∀ (ps : List Platform) (i : Nat) (kept : List Platform) (f : Bool) (n : Nat) (j : Nat)
      (hj : j < ps.length), i + j = pIdx → ps[j].y < thr →
      (cleanupLoop thr pIdx i ps (kept, f, n)).2 =
        (true, kept.length + ((ps.take j).filter (fun p => decide (p.y < thr))).length) := by
  intro ps
  induction ps with
  | nil => intro i kept f n j hj; exact absurd hj (by simp)
  | cons p rest ih =>
    intro i kept f n j hj hij hy
    simp only [cleanupLoop]
    match j with
    | 0 =>
      have hp : p.y < thr := by simpa using hy
      rw [if_pos hp, if_pos (by omega : i = pIdx)]
      rw [cleanupLoop_snd_past thr pIdx rest (i + 1) _ true _ (by omega)]
      simp
    | Nat.succ j' =>
      have hj' : j' < rest.length := by simpa using hj
      have hy' : rest[j'].y < thr := by simpa using hy
      by_cases hp : p.y < thr
      · rw [if_pos hp, if_neg (by omega : ¬i = pIdx)]
        rw [ih (i + 1) (kept ++ [p]) f n j' hj' (by omega) hy']
        simp [List.take_succ_cons, hp]
        omega
      · rw [if_neg hp]
        rw [ih (i + 1) kept f n j' hj' (by omega) hy']
        simp [List.take_succ_cons, hp]

theorem cleanupLoop_snd_miss (thr : Int) (pIdx : Nat) :
    ∀ (ps : List Platform) (i : Nat) (kept : List Platform) (f : Bool) (n : Nat),
      (∀ (j : Nat) (hj : j < ps.length), i + j = pIdx → ¬(ps[j].y < thr)) →
      (cleanupLoop thr pIdx i ps (kept, f, n)).2 = (f, n) := by
  intro ps
  induction ps with
  | nil => intro i kept f n _; simp [cleanupLoop]
  | cons p rest ih =>
    intro i kept f n hmiss
    simp only [cleanupLoop]
    by_cases hp : p.y < thr
    · have hne : ¬i = pIdx := by
        intro he
        exact hmiss 0 (by simp) (by omega) (by simpa using hp)
      rw [if_pos hp, if_neg hne]
      refine ih (i + 1) _ f n ?_
      intro j hj hij
      exact hmiss (j + 1) (by simpa using Nat.succ_lt_succ hj) (by omega)
    · rw [if_neg hp]
      refine ih (i + 1) kept f n ?_
      intro j hj hij
      exact hmiss (j + 1) (by simpa using Nat.succ_lt_succ hj) (by omega)

theorem filter_position_getD {α : Type} [Inhabited α] (l : List α) (pred : α → Bool) (k : Nat)
    (hk : k < l.length) (hkeep : pred l[k] = true) :
    (l.filter pred).getD ((l.take k).filter pred).length default = l[k] ∧
    ((l.take k).filter pred).length < (l.filter pred).length := by
  have hsingle : List.filter pred [l[k]] = [l[k]] := by simp [hkeep]
  have hdecomp : l.filter pred =
      (l.take k).filter pred ++ l[k] :: (l.drop (k + 1)).filter pred := by
    conv_lhs => rw [← List.take_append_drop (k + 1) l]
    rw [List.filter_append, List.take_succ, List.getElem?_eq_getElem hk,
      Option.toList_some, List.filter_append, hsingle, List.append_assoc,
      List.singleton_append]
  constructor
  · rw [hdecomp, List.getD_eq_getElem?_getD, List.getElem?_append_right (le_refl _)]
    simp
  · rw [hdecomp]
    simp

theorem cleanupPlatforms_platforms_eq (g : Game) :
    (cleanupPlatforms g).platforms =
      (cleanupLoop (g.height + 100) g.player.platform 0 g.platforms ([], false, 0)).1 := by
  rw [cleanupPlatforms]
  try dsimp only
  split
  · rfl
  · split
    · rfl
    · rfl

theorem cleanup_keep_facts (g : Game) (hidx : g.player.platform < g.platforms.length)
    (hkeep : (g.platforms.getD g.player.platform default).y < g.height + 100) :
    (cleanupPlatforms g).player.platform < (cleanupPlatforms g).platforms.length ∧
    (cleanupPlatforms g).platforms.getD (cleanupPlatforms g).player.platform default =
      g.platforms.getD g.player.platform default := by
  have hgetD : g.platforms.getD g.player.platform default = g.platforms[g.player.platform] := by
    rw [List.getD_eq_getElem?_getD, List.getElem?_eq_getElem hidx]
    rfl
  have hfst : (cleanupLoop (g.height + 100) g.player.platform 0 g.platforms ([], false, 0)).1 =
      g.platforms.filter (fun p => decide (p.y < g.height + 100)) := by
    rw [cleanupLoop_fst]
    rfl
  rw [hgetD] at hkeep
  have hsnd := cleanupLoop_snd_hit (g.height + 100) g.player.platform g.platforms 0 [] false 0
    g.player.platform hidx (by omega) hkeep
  have hplayer : (cleanupPlatforms g).player.platform =
      ((g.platforms.take g.player.platform).filter
        (fun p => decide (p.y < g.height + 100))).length := by
    rw [cleanupPlatforms]
    try dsimp only
    rw [if_pos (by rw [hsnd])]
    show (cleanupLoop (g.height + 100) g.player.platform 0 g.platforms ([], false, 0)).2.2 = _
    rw [hsnd]
    simp
  obtain ⟨hval, hlt⟩ := filter_position_getD g.platforms
    (fun p => decide (p.y < g.height + 100)) g.player.platform hidx (by simpa using hkeep)
  constructor
  · rw [hplayer, cleanupPlatforms_platforms_eq, hfst]
    exact hlt
  · rw [hplayer, cleanupPlatforms_platforms_eq, hfst, hgetD]
    exact hval

/-- C2 (amended): the prune step keeps exactly the platforms with
y < height + 100 in their original order, repoints the player's index at the
same platform whenever it survived, and resets the index to 0 when the
player's platform was removed but platforms remain. -/
theorem cleanup_spec (g : Game) (hidx : g.player.platform < g.platforms.length) :
    (cleanupPlatforms g).platforms =
      g.platforms.filter (fun p => decide (p.y < g.height + 100)) ∧
    ((g.platforms.getD g.player.platform default).y < g.height + 100 →
      (cleanupPlatforms g).player.platform < (cleanupPlatforms g).platforms.length ∧
      (cleanupPlatforms g).platforms.getD (cleanupPlatforms g).player.platform default =
        g.platforms.getD g.player.platform default) ∧
    (¬(g.platforms.getD g.player.platform default).y < g.height + 100 →
      (cleanupPlatforms g).platforms ≠ [] →
      (cleanupPlatforms g).player.platform = 0) := by
  have hgetD : g.platforms.getD g.player.platform default = g.platforms[g.player.platform] := by
    rw [List.getD_eq_getElem?_getD, List.getElem?_eq_getElem hidx]
    rfl
  have hfst : (cleanupLoop (g.height + 100) g.player.platform 0 g.platforms ([], false, 0)).1 =
      g.platforms.filter (fun p => decide (p.y < g.height + 100)) := by
    rw [cleanupLoop_fst]
    rfl
  refine ⟨by rw [cleanupPlatforms_platforms_eq, hfst], ?_, ?_⟩
  · intro hkeep
    exact cleanup_keep_facts g hidx hkeep
  · intro hdrop hne
    rw [hgetD] at hdrop
    have hsnd := cleanupLoop_snd_miss (g.height + 100) g.player.platform g.platforms 0 [] false 0
      (by
        intro j hj hij
        have : j = g.player.platform := by omega
        subst this
        exact hdrop)
    rw [cleanupPlatforms]
    try dsimp only
    rw [if_neg (by rw [hsnd]; exact Bool.false_ne_true)]
    rw [if_pos ?hpos]
    case hpos =>
      rw [List.length_pos]
      intro hnil
      apply hne
      rw [cleanupPlatforms_platforms_eq]
      exact hnil

/-- A concrete game with one platform exactly at the y = height + 100
boundary. -/
def sampleBoundary : Game :=
  { state := .playing, width := 80, height := 24,
    player := { x := 0, y := 0, platform := 0 },
    platforms := [{ x := 0, y := 0, width := 10, word := ['a', 'b'], typed := [],
                    complete := false },
                  { x := 0, y := 124, width := 10, word := ['c', 'd'], typed := [],
                    complete := false }],
    score := 0, wordsTyped := 0, charsTyped := 0, shouldExit := false,
    scrollSpeed := 5, scrollOffset := 0, scrollAccumulator := 0 }

/-- Counterexample to C2 as stated: in sampleBoundary no platform's y exceeds
height + 100 = 124, yet the prune step still removes the platform sitting
exactly at y = 124, so it does not remove exactly the platforms whose y
exceeds height + 100. -/
theorem cleanup_exceeds_counterexample :
    (∀ p ∈ sampleBoundary.platforms, ¬(p.y > sampleBoundary.height + 100)) ∧
    (cleanupPlatforms sampleBoundary).platforms ≠ sampleBoundary.platforms := by
  decide

/-- Witness for the amended C2 on sampleBoundary. -/
theorem cleanup_spec_witness :
    (cleanupPlatforms sampleBoundary).platforms =
      sampleBoundary.platforms.filter
        (fun p => decide (p.y < sampleBoundary.height + 100)) :=
  (cleanup_spec sampleBoundary (by decide)).1

/-- k indexes an incomplete platform strictly below the row currentY. -/
def IsNextCandidate (all : List Platform) (currentY : Int) (k : Nat) : Prop :=
  k < all.length ∧ (all.getD k default).y < currentY ∧
    (all.getD k default).complete = false

instance (all : List Platform) (currentY : Int) (k : Nat) :
    Decidable (IsNextCandidate all currentY k) := by
  unfold IsNextCandidate
  infer_instance

/-- Correctness of a scan result: none means no candidate exists, some j means
j is a candidate of maximal y. -/
def FindOk (all : List Platform) (currentY : Int) : Option Nat → Prop
  | none => ∀ k, ¬IsNextCandidate all currentY k
  | some j => IsNextCandidate all currentY j ∧ ∀ k, IsNextCandidate all currentY k →
      (all.getD k default).y ≤ (all.getD j default).y

/-- Loop invariant of the scan after the first i positions were examined. -/
def FindInv (all : List Platform) (currentY : Int) (i : Nat) : Option Nat → Prop
  | none => ∀ k < i, ¬IsNextCandidate all currentY k
  | some j => IsNextCandidate all currentY j ∧ ∀ k < i, IsNextCandidate all currentY k →
      (all.getD k default).y ≤ (all.getD j default).y

theorem findNextLoop_ok (all : List Platform) (cY : Int) :
    ∀ (rest : List Platform) (i : Nat) (best : Option Nat),
      rest = all.drop i → FindInv all cY i best →
      FindOk all cY (findNextLoop all cY i rest best) := by
  intro rest
  induction rest with
  | nil =>
    intro i best hdrop hinv
    have hlen : all.length ≤ i := by
      by_contra hlt
      push_neg at hlt
      have hcons := List.drop_eq_getElem_cons hlt
      rw [← hdrop] at hcons
      simp at hcons
      omega
    rw [findNextLoop]
    cases best with
    | none =>
      intro k hk
      exact hinv k (lt_of_lt_of_le hk.1 hlen) hk
    | some j =>
      exact ⟨hinv.1, fun k hk => hinv.2 k (lt_of_lt_of_le hk.1 hlen) hk⟩
  | cons p rest ih =>
    intro i best hdrop hinv
    have hi : i < all.length := by
      by_contra hge
      push_neg at hge
      rw [List.drop_eq_nil_of_le hge] at hdrop
      simp at hdrop
    have hcons := List.drop_eq_getElem_cons hi
    rw [← hdrop] at hcons
    rw [List.cons.injEq] at hcons
    obtain ⟨hp, hrest⟩ := hcons
    have hgetDi : all.getD i default = all[i] := by
      rw [List.getD_eq_getElem?_getD, List.getElem?_eq_getElem hi]
      rfl
    have hcof : ∀ hcand : p.y < cY ∧ p.complete = false, IsNextCandidate all cY i := by
      intro hcand
      refine ⟨hi, ?_, ?_⟩
      · rw [hgetDi, ← hp]; exact hcand.1
      · rw [hgetDi, ← hp]; exact hcand.2
    have hnof : ∀ _ : ¬(p.y < cY ∧ p.complete = false), ¬IsNextCandidate all cY i := by
      intro hnc hcand
      refine hnc ⟨?_, ?_⟩
      · rw [hp, ← hgetDi]; exact hcand.2.1
      · rw [hp, ← hgetDi]; exact hcand.2.2
    cases best with
    | none =>
      rw [findNextLoop]
      by_cases hc : p.y < cY ∧ p.complete = false
      · rw [if_pos (by simp [hc.1, hc.2])]
        refine ih (i + 1) (some i) hrest ?_
        refine ⟨hcof hc, ?_⟩
        intro k hk hcand
        rcases Nat.lt_succ_iff_lt_or_eq.mp hk with hk' | hk'
        · exact absurd hcand (hinv k hk')
        · subst hk'; exact le_refl _
      · rw [if_neg (by
          simp only [Bool.and_eq_true, decide_eq_true_eq, Bool.not_eq_eq_eq_not, Bool.not_true]
          intro hand
          exact hc ⟨hand.1, by simpa using hand.2⟩)]
        refine ih (i + 1) none hrest ?_
        intro k hk
        rcases Nat.lt_succ_iff_lt_or_eq.mp hk with hk' | hk'
        · exact hinv k hk'
        · subst hk'; exact hnof hc
    | some j =>
      rw [findNextLoop]
      by_cases hc : p.y < cY ∧ p.complete = false
      · rw [if_pos (by simp [hc.1, hc.2])]
        by_cases hgt : p.y > (all.getD j default).y
        · rw [if_pos hgt]
          refine ih (i + 1) (some i) hrest ?_
          refine ⟨hcof hc, ?_⟩
          intro k hk hcand
          rcases Nat.lt_succ_iff_lt_or_eq.mp hk with hk' | hk'
          · refine le_trans (hinv.2 k hk' hcand) ?_
            rw [hgetDi, ← hp]
            exact le_of_lt hgt
          · subst hk'; exact le_refl _
        · rw [if_neg hgt]
          refine ih (i + 1) (some j) hrest ?_
          refine ⟨hinv.1, ?_⟩
          intro k hk hcand
          rcases Nat.lt_succ_iff_lt_or_eq.mp hk with hk' | hk'
          · exact hinv.2 k hk' hcand
          · subst hk'
            rw [hgetDi, ← hp]
            exact not_lt.mp hgt
      · rw [if_neg (by
          simp only [Bool.and_eq_true, decide_eq_true_eq, Bool.not_eq_eq_eq_not, Bool.not_true]
          intro hand
          exact hc ⟨hand.1, by simpa using hand.2⟩)]
        refine ih (i + 1) (some j) hrest ?_
        refine ⟨hinv.1, ?_⟩
        intro k hk hcand
        rcases Nat.lt_succ_iff_lt_or_eq.mp hk with hk' | hk'
        · exact hinv.2 k hk' hcand
        · subst hk'; exact absurd hcand (hnof hc)

theorem findNextPlatform_ok (all : List Platform) (cY : Int) :
    FindOk all cY (findNextPlatform all cY) := by
  rw [findNextPlatform]
  refine findNextLoop_ok all cY all 0 none rfl ?_
  intro k hk
  exact absurd hk (Nat.not_lt_zero k)

theorem generateMorePlatforms_platforms_congr (g1 g2 : Game) (ws : Nat → Str)
    (hp : g1.platforms = g2.platforms) (hw : g1.width = g2.width) :
    (generateMorePlatforms g1 ws).platforms = (generateMorePlatforms g2 ws).platforms := by
  unfold generateMorePlatforms
  rw [hp, hw]
  split
  · exact hp
  · try dsimp only
    split
    · rfl
    · exact hp

theorem handleTyping_completes (g : Game) (c : Char) (e : ℚ) (ws : Nat → Str)
    (hidx : g.player.platform < g.platforms.length)
    (hvalid : isValidChar (g.platforms.getD g.player.platform default).word
      (g.platforms.getD g.player.platform default).typed c = true)
    (hdone : isWordComplete (g.platforms.getD g.player.platform default).word
      ((g.platforms.getD g.player.platform default).typed ++ [c]) = true) :
    handleTyping g c e ws = completeWord
      { g with
        platforms := g.platforms.set g.player.platform ({ (g.platforms.getD g.player.platform default) with typed := (g.platforms.getD g.player.platform default).typed ++ [c] })
        charsTyped := g.charsTyped + 1 } e ws := by
  have h0 : ¬(g.platforms.length = 0) := by omega
  rw [handleTyping]
  try dsimp only
  rw [if_neg h0, if_pos hvalid, if_pos hdone]

theorem completeWord_spec (g : Game) (e : ℚ) (ws : Nat → Str) :
    completeWord g e ws = jumpToNextPlatform
      { g with
        platforms := g.platforms.set g.player.platform ({ (g.platforms.getD g.player.platform default) with complete := true })
        wordsTyped := g.wordsTyped + 1
        score := g.score + ((g.platforms.getD g.player.platform default).word.length : Int) * 10 + (if e > 0 then ⌊max 0 (100 - e / ((g.wordsTyped : ℚ) + 1))⌋ else 0) } ws := by
  have hcast : ((g.wordsTyped + 1 : Nat) : ℚ) = (g.wordsTyped : ℚ) + 1 := by
    push_cast
    ring
  rw [completeWord]
  try dsimp only
  rw [hcast]
  by_cases he : e > 0
  · rw [if_pos he, if_pos he]
  · rw [if_neg he, if_neg he]
    rw [add_zero]

theorem jumpToNextPlatform_some (g : Game) (ws : Nat → Str) (j : Nat)
    (hfind : findNextPlatform g.platforms
      (g.platforms.getD g.player.platform default).y = some j) :
    jumpToNextPlatform g ws =
      { g with player :=
          { x := (g.platforms.getD j default).x +
              Int.tdiv (g.platforms.getD j default).width 2,
            y := (g.platforms.getD j default).y - 1, platform := j } } := by
  rw [jumpToNextPlatform]
  try dsimp only
  rw [hfind]

theorem jumpToNextPlatform_none (g : Game) (ws : Nat → Str)
    (hfind : findNextPlatform g.platforms
      (g.platforms.getD g.player.platform default).y = none) :
    jumpToNextPlatform g ws = generateMorePlatforms g ws := by
  rw [jumpToNextPlatform]
  try dsimp only
  rw [hfind]

theorem getD_set_self (l : List Platform) (i : Nat) (a : Platform) (hi : i < l.length) :
    (l.set i a).getD i default = a := by
  rw [List.getD_eq_getElem?_getD, List.getElem?_set_self hi]
  rfl

/-- C1: while playing, typing the last valid character of the incomplete
platform under the player marks it complete, increments wordsTyped by one,
adds len(word)*10 points plus the floored speed bonus when elapsed time is
positive, and jumps the player to the incomplete platform of largest y among
those strictly above; when none exists, generateMorePlatforms runs and the
player's index is unchanged. -/
theorem complete_word_spec (g : Game) (c : Char) (e : ℚ) (ws : Nat → Str)
    (hstate : g.state = .playing)
    (halpha : isAlphanumeric c = true)
    (hidx : g.player.platform < g.platforms.length)
    (hincomplete : (g.platforms.getD g.player.platform default).complete = false)
    (hvalid : isValidChar (g.platforms.getD g.player.platform default).word
      (g.platforms.getD g.player.platform default).typed c = true)
    (hdone : isWordComplete (g.platforms.getD g.player.platform default).word
      ((g.platforms.getD g.player.platform default).typed ++ [c]) = true) :
    ((processInput g c e ws).platforms.getD g.player.platform default).complete = true ∧
    (processInput g c e ws).wordsTyped = g.wordsTyped + 1 ∧
    (processInput g c e ws).charsTyped = g.charsTyped + 1 ∧
    (processInput g c e ws).score = g.score +
      ((g.platforms.getD g.player.platform default).word.length : Int) * 10 +
      (if e > 0 then ⌊max 0 (100 - e / ((g.wordsTyped : ℚ) + 1))⌋ else 0) ∧
    (let ps1 := g.platforms.set g.player.platform ({ (g.platforms.getD g.player.platform default) with typed := (g.platforms.getD g.player.platform default).typed ++ [c], complete := true });
     let cY := (g.platforms.getD g.player.platform default).y;
     ((∃ k, IsNextCandidate ps1 cY k) →
        (processInput g c e ws).platforms = ps1 ∧
        IsNextCandidate ps1 cY (processInput g c e ws).player.platform ∧
        (∀ k, IsNextCandidate ps1 cY k →
          (ps1.getD k default).y ≤
            (ps1.getD (processInput g c e ws).player.platform default).y)) ∧
     ((¬∃ k, IsNextCandidate ps1 cY k) →
        (processInput g c e ws).player.platform = g.player.platform ∧
        (processInput g c e ws).platforms =
          (generateMorePlatforms { g with platforms := ps1 } ws).platforms)) := by
  obtain ⟨h27, h8, h127⟩ := isAlphanumeric_not_control c halpha
  have hpi : processInput g c e ws = handleTyping g c e ws := by
    rw [processInput, hstate, processGameInput, if_neg h27, if_neg (by tauto), if_pos halpha]
  have hstep := handleTyping_completes g c e ws hidx hvalid hdone
  rw [hstep] at hpi
  rw [completeWord_spec] at hpi
  set idx := g.player.platform with hidxdef
  set cp := g.platforms.getD idx default with hcp
  have hreadback : (g.platforms.set idx ({ cp with typed := cp.typed ++ [c] })).getD idx default = { cp with typed := cp.typed ++ [c] } := getD_set_self _ idx _ hidx
  rw [hreadback] at hpi
  rw [List.set_set] at hpi
  set ps1 := g.platforms.set idx ({ cp with typed := cp.typed ++ [c], complete := true }) with hps1
  have hlen1 : ps1.length = g.platforms.length := List.length_set g.platforms idx _
  have hread1 : ps1.getD idx default = { cp with typed := cp.typed ++ [c], complete := true } := getD_set_self _ idx _ hidx
  have hy1 : (ps1.getD idx default).y = cp.y := by rw [hread1]
  set gJ : Game := { g with
    platforms := ps1
    wordsTyped := g.wordsTyped + 1
    score := g.score + (cp.word.length : Int) * 10 + (if e > 0 then ⌊max 0 (100 - e / ((g.wordsTyped : ℚ) + 1))⌋ else 0)
    charsTyped := g.charsTyped + 1 } with hgJ
  have hok := findNextPlatform_ok ps1 cp.y
  cases hfind : findNextPlatform ps1 cp.y with
  | some j =>
    rw [hfind] at hok
    simp only [FindOk] at hok
    have hfind2 : findNextPlatform gJ.platforms ((gJ.platforms.getD gJ.player.platform default).y) = some j := by
      show findNextPlatform ps1 ((ps1.getD idx default).y) = some j
      rw [hy1]
      exact hfind
    rw [jumpToNextPlatform_some gJ ws j hfind2] at hpi
    rw [hpi]
    refine ⟨?_, rfl, rfl, rfl, ?_⟩
    · show (ps1.getD idx default).complete = true
      rw [hread1]
    · try dsimp only
      constructor
      · intro _
        refine ⟨rfl, hok.1, ?_⟩
        intro k hk
        exact hok.2 k hk
      · intro hno
        exact absurd ⟨j, hok.1⟩ hno
  | none =>
    rw [hfind] at hok
    simp only [FindOk] at hok
    have hfind2 : findNextPlatform gJ.platforms ((gJ.platforms.getD gJ.player.platform default).y) = none := by
      show findNextPlatform ps1 ((ps1.getD idx default).y) = none
      rw [hy1]
      exact hfind
    rw [jumpToNextPlatform_none gJ ws hfind2] at hpi
    rw [hpi]
    obtain ⟨extra, hex⟩ := generateMorePlatforms_grows gJ ws
    have hgp : gJ.platforms = ps1 := rfl
    rw [hgp] at hex
    obtain ⟨ps, hgm⟩ := generateMorePlatforms_eq gJ ws
    refine ⟨?_, ?_, ?_, ?_, ?_⟩
    · rw [hex]
      rw [List.getD_eq_getElem?_getD, List.getElem?_append_left (by rw [hlen1]; exact hidx)]
      rw [← List.getD_eq_getElem?_getD]
      rw [hread1]
    · rw [hgm]
    · rw [hgm]
    · rw [hgm]
    · try dsimp only
      constructor
      · intro hexk
        obtain ⟨k, hk⟩ := hexk
        exact absurd hk (hok k)
      · intro _
        constructor
        · rw [generateMorePlatforms_player]
        · exact generateMorePlatforms_platforms_congr gJ _ ws rfl rfl

/-- A concrete playing game one keystroke away from completing its word. -/
def sampleAlmost : Game :=
  { state := .playing, width := 80, height := 24,
    player := { x := 0, y := 0, platform := 0 },
    platforms := [{ x := 0, y := 10, width := 10, word := ['a', 'b'], typed := ['a'],
                    complete := false },
                  { x := 0, y := 5, width := 10, word := ['c', 'd'], typed := [],
                    complete := false }],
    score := 0, wordsTyped := 0, charsTyped := 0, shouldExit := false,
    scrollSpeed := 5, scrollOffset := 0, scrollAccumulator := 0 }

/-- Witness for C1: typing 'b' on sampleAlmost completes the word. -/
theorem complete_word_spec_witness :
    ((processInput sampleAlmost 'b' 0 wsA).platforms.getD
      sampleAlmost.player.platform default).complete = true :=
  (complete_word_spec sampleAlmost 'b' 0 wsA rfl (by decide) (by decide) (by decide)
    (by decide) (by decide)).1

/-! Facts about platform generation, used by the invariant claims. -/

theorem initFold_length (g : Game) (ws : Nat → Str) :
    ∀ (l : List Nat) (acc : List Platform × Int),
      ((l.foldl (initialPlatformStep g ws) acc).1).length = acc.1.length + l.length := by
  intro l
  induction l with
  | nil => intro acc; simp
  | cons i rest ih =>
    intro acc
    rw [List.foldl_cons, ih]
    show (initialPlatformStep g ws acc i).1.length + rest.length = _
    rw [initialPlatformStep]
    simp
    omega

theorem initFold_mem (g : Game) (ws : Nat → Str) :
    ∀ (l : List Nat) (acc : List Platform × Int) (p : Platform),
      p ∈ (l.foldl (initialPlatformStep g ws) acc).1 →
      p ∈ acc.1 ∨ p.typed = ([] : Str) := by
  intro l
  induction l with
  | nil => intro acc p hp; exact Or.inl hp
  | cons i rest ih =>
    intro acc p hp
    rw [List.foldl_cons] at hp
    rcases ih _ p hp with hmem | htyped
    · rw [initialPlatformStep] at hmem
      rcases List.mem_append.mp hmem with h1 | h2
      · exact Or.inl h1
      · right
        rw [List.mem_singleton] at h2
        rw [h2]
    · exact Or.inr htyped

theorem generateInitialPlatforms_length (g : Game) (ws : Nat → Str) :
    (generateInitialPlatforms g ws).platforms.length = 15 := by
  rw [generateInitialPlatforms]
  try dsimp only
  rw [initFold_length]
  rfl

theorem generateInitialPlatforms_player (g : Game) (ws : Nat → Str) :
    (generateInitialPlatforms g ws).player = g.player := rfl

theorem generateInitialPlatforms_typed (g : Game) (ws : Nat → Str) :
    ∀ p ∈ (generateInitialPlatforms g ws).platforms, p.typed = ([] : Str) := by
  intro p hp
  rw [generateInitialPlatforms] at hp
  try dsimp only at hp
  rcases initFold_mem g ws _ _ p hp with hmem | htyped
  · rw [List.mem_singleton] at hmem
    rw [hmem]
  · exact htyped

theorem generateMorePlatforms_mem (g : Game) (ws : Nat → Str) :
    ∀ p ∈ (generateMorePlatforms g ws).platforms,
      p ∈ g.platforms ∨ p.typed = ([] : Str) := by
  intro p hp
  rw [generateMorePlatforms] at hp
  by_cases h0 : g.platforms.length = 0
  · rw [if_pos h0] at hp
    exact Or.inl hp
  · rw [if_neg h0] at hp
    try dsimp only at hp
    split at hp
    · rcases List.mem_append.mp hp with h1 | h2
      · exact Or.inl h1
      · right
        obtain ⟨i, _, hi⟩ := List.mem_map.mp h2
        rw [← hi]
    · exact Or.inl hp

theorem reset_player (g : Game) (ws : Nat → Str) :
    (reset g ws).player.platform = 0 := by
  rw [reset]
  try dsimp only
  rw [show ∀ gg : Game, (generateInitialPlatforms gg ws).player = gg.player from
    fun gg => generateInitialPlatforms_player gg ws]

theorem reset_length (g : Game) (ws : Nat → Str) :
    (reset g ws).platforms.length = 15 := by
  rw [reset]
  try dsimp only
  rw [generateInitialPlatforms_length]

/-! The player-index invariant of C6 and its preservation by each operation. -/

/-- Whenever platforms exist, the player's index is in range. -/
def IndexInv (g : Game) : Prop :=
  g.platforms ≠ [] → g.player.platform < g.platforms.length

theorem indexInv_reset (g : Game) (ws : Nat → Str) : IndexInv (reset g ws) := by
  intro _
  rw [reset_player g ws, reset_length g ws]
  omega

theorem indexInv_generateMore (g : Game) (ws : Nat → Str) (h : IndexInv g) :
    IndexInv (generateMorePlatforms g ws) := by
  by_cases hemp : g.platforms = []
  · have hid : generateMorePlatforms g ws = g := by
      unfold generateMorePlatforms
      rw [if_pos (by rw [hemp]; rfl)]
    rw [hid]
    exact h
  · intro hne
    obtain ⟨extra, hex⟩ := generateMorePlatforms_grows g ws
    rw [generateMorePlatforms_player g ws, hex, List.length_append]
    have := h hemp
    omega

theorem indexInv_jump (g : Game) (ws : Nat → Str) (h : IndexInv g) :
    IndexInv (jumpToNextPlatform g ws) := by
  have hok := findNextPlatform_ok g.platforms (g.platforms.getD g.player.platform default).y
  cases hfind : findNextPlatform g.platforms (g.platforms.getD g.player.platform default).y with
  | some j =>
    rw [hfind] at hok
    simp only [FindOk] at hok
    rw [jumpToNextPlatform_some g ws j hfind]
    intro _
    exact hok.1.1
  | none =>
    rw [jumpToNextPlatform_none g ws hfind]
    exact indexInv_generateMore g ws h

theorem indexInv_completeWord (g : Game) (e : ℚ) (ws : Nat → Str) (h : IndexInv g) :
    IndexInv (completeWord g e ws) := by
  rw [completeWord_spec]
  apply indexInv_jump
  intro hne
  show g.player.platform < (g.platforms.set _ _).length
  rw [List.length_set]
  apply h
  intro hnil
  rw [hnil] at hne
  exact hne rfl

theorem indexInv_handleTyping (g : Game) (key : Char) (e : ℚ) (ws : Nat → Str)
    (h : IndexInv g) : IndexInv (handleTyping g key e ws) := by
  rw [handleTyping]
  try dsimp only
  by_cases h0 : g.platforms.length = 0
  · rw [if_pos h0]
    exact h
  · rw [if_neg h0]
    split
    · split
      · apply indexInv_completeWord
        intro _
        show g.player.platform < (g.platforms.set _ _).length
        rw [List.length_set]
        exact h (by intro hnil; rw [hnil] at h0; exact h0 rfl)
      · intro _
        show g.player.platform < (g.platforms.set _ _).length
        rw [List.length_set]
        exact h (by intro hnil; rw [hnil] at h0; exact h0 rfl)
    · exact h

theorem indexInv_handleBackspace (g : Game) (h : IndexInv g) :
    IndexInv (handleBackspace g) := by
  rw [handleBackspace]
  try dsimp only
  by_cases h0 : g.platforms.length = 0
  · rw [if_pos h0]
    exact h
  · rw [if_neg h0]
    split
    · intro _
      show g.player.platform < (g.platforms.set _ _).length
      rw [List.length_set]
      exact h (by intro hnil; rw [hnil] at h0; exact h0 rfl)
    · exact h

theorem indexInv_cleanup (g : Game) (h : IndexInv g) :
    IndexInv (cleanupPlatforms g) := by
  by_cases hemp : g.platforms = []
  · have hres : cleanupLoop (g.height + 100) g.player.platform 0 g.platforms ([], false, 0) =
        ([], false, 0) := by
      rw [hemp, cleanupLoop]
    intro hne
    rw [cleanupPlatforms_platforms_eq, hres] at hne
    exact absurd rfl hne
  · have hidx0 := h hemp
    by_cases hkeep : (g.platforms.getD g.player.platform default).y < g.height + 100
    · obtain ⟨hlt, hval⟩ := cleanup_keep_facts g hidx0 hkeep
      intro _
      exact hlt
    · have hgetD : g.platforms.getD g.player.platform default =
          g.platforms[g.player.platform] := by
        rw [List.getD_eq_getElem?_getD, List.getElem?_eq_getElem hidx0]
        rfl
      rw [hgetD] at hkeep
      have hsnd := cleanupLoop_snd_miss (g.height + 100) g.player.platform g.platforms 0 [] false 0
        (by
          intro j hj hij
          have : j = g.player.platform := by omega
          subst this
          exact hkeep)
      intro hne
      rw [cleanupPlatforms]
      try dsimp only
      rw [if_neg (by rw [hsnd]; exact Bool.false_ne_true)]
      rw [cleanupPlatforms_platforms_eq] at hne
      have hpos : 0 < (cleanupLoop (g.height + 100) g.player.platform 0 g.platforms
          ([], false, 0)).1.length := List.length_pos.mpr hne
      rw [if_pos hpos]
      exact hpos

theorem indexInv_scrollMove (g : Game) (h : IndexInv g) : IndexInv (scrollMove g) := by
  have hfacts : (scrollMove g).platforms.length = g.platforms.length ∧
      (scrollMove g).player.platform = g.player.platform := by
    rw [scrollMove]
    try dsimp only
    split <;> split <;> simp
  intro hne
  rw [hfacts.1, hfacts.2]
  apply h
  intro hnil
  apply hne
  have hlen0 : (scrollMove g).platforms.length = 0 := by
    rw [hfacts.1, hnil]
    rfl
  exact List.length_eq_zero.mp hlen0

theorem indexInv_updateGameLogic (g : Game) (ws : Nat → Str) (h : IndexInv g) :
    IndexInv (updateGameLogic g ws) := by
  rw [updateGameLogic]
  try dsimp only
  split
  · exact indexInv_scrollMove g h
  · exact indexInv_cleanup _ (indexInv_generateMore _ ws (indexInv_scrollMove g h))

theorem indexInv_processInput (g : Game) (key : Char) (e : ℚ) (ws : Nat → Str)
    (h : IndexInv g) : IndexInv (processInput g key e ws) := by
  cases hs : g.state with
  | menu =>
    simp only [processInput, hs]
    rw [processMenuInput]
    split
    · exact indexInv_reset _ ws
    · split
      · exact h
      · split
        · exact h
        · exact h
  | playing =>
    simp only [processInput, hs]
    rw [processGameInput]
    split
    · exact h
    · split
      · exact indexInv_handleBackspace g h
      · split
        · exact indexInv_handleTyping g key e ws h
        · exact h
  | paused =>
    simp only [processInput, hs]
    rw [processPauseInput]
    split
    · exact h
    · split
      · exact h
      · exact h
  | gameOver =>
    simp only [processInput, hs]
    rw [processGameOverInput]
    split
    · exact indexInv_reset _ ws
    · split
      · exact h
      · exact h

theorem indexInv_render (g : Game) (ws : Nat → Str) (h : IndexInv g) :
    IndexInv (renderStep g ws) := by
  rw [renderStep]
  split
  · exact indexInv_updateGameLogic g ws h
  · exact h

theorem indexInv_start (width height : Int) (ws : Nat → Str) :
    IndexInv (startGame width height ws) := by
  rw [startGame]
  try dsimp only
  exact indexInv_reset _ ws

/-- C6: whenever the platform list is non-empty, the player's platform index is
in range, in every state reachable from a started game through ProcessInput and
Render (including Start(80,24) itself). -/
theorem player_index_in_range (g : Game) (hg : Reachable g) (hne : g.platforms ≠ []) :
    g.player.platform < g.platforms.length := by
  have hinv : IndexInv g := by
    clear hne
    induction hg with
    | start width height ws => exact indexInv_start width height ws
    | input g0 key e ws hr ih => exact indexInv_processInput g0 key e ws ih
    | render g0 ws hr ih => exact indexInv_render g0 ws ih
  exact hinv hne

/-- Witness for C6 at the started 80x24 game. -/
theorem player_index_in_range_witness :
    (startGame 80 24 wsA).player.platform < (startGame 80 24 wsA).platforms.length :=
  player_index_in_range (startGame 80 24 wsA) (Reachable.start 80 24 wsA) (by decide)

/-! The case-insensitive-prefix invariant of C3 and its preservation. -/

theorem isValidChar_true_facts (word typed : Str) (c : Char)
    (h : isValidChar word typed c = true) :
    typed.length < word.length ∧
      Char.toLower c = (strToLower word).getD typed.length (Char.ofNat 0) := by
  rw [isValidChar] at h
  by_cases hle : word.length ≤ typed.length
  · rw [if_pos hle] at h
    exact absurd h (by simp)
  · rw [if_neg hle] at h
    exact ⟨by omega, beq_iff_eq.mp h⟩

theorem strToLower_length (s : Str) : (strToLower s).length = s.length :=
  List.length_map s Char.toLower

theorem prefix_extend (t w : Str) (c : Char)
    (hpre : strToLower t <+: strToLower w)
    (hlt : t.length < w.length)
    (hc : Char.toLower c = (strToLower w).getD t.length (Char.ofNat 0)) :
    strToLower (t ++ [c]) <+: strToLower w := by
  obtain ⟨r, hr⟩ := hpre
  have hlen : (strToLower t).length = t.length := strToLower_length t
  have hlenw : (strToLower w).length = w.length := strToLower_length w
  cases r with
  | nil =>
    rw [List.append_nil] at hr
    have hlens := congrArg List.length hr
    rw [hlen, hlenw] at hlens
    omega
  | cons x r2 =>
    have hx : (strToLower w).getD t.length (Char.ofNat 0) = x := by
      rw [← hr, List.getD_eq_getElem?_getD,
        List.getElem?_append_right (by rw [hlen] : (strToLower t).length ≤ t.length)]
      rw [hlen]
      simp
    have heq : strToLower (t ++ [c]) = strToLower t ++ [Char.toLower c] := by
      rw [strToLower, List.map_append]
      rfl
    rw [heq, hc, hx]
    refine ⟨r2, ?_⟩
    rw [← hr]
    simp

theorem prefix_dropLast (t w : Str) (hpre : strToLower t <+: strToLower w) :
    strToLower t.dropLast <+: strToLower w := by
  have heq : strToLower t.dropLast = (strToLower t).dropLast :=
    List.map_dropLast Char.toLower t
  rw [heq]
  exact List.IsPrefix.trans (List.dropLast_prefix _) hpre

/-- Every platform's typed buffer is a case-insensitive prefix of its word. -/
def PrefixInv (g : Game) : Prop :=
  ∀ p ∈ g.platforms, strToLower p.typed <+: strToLower p.word

theorem prefixInv_generateInitial (g : Game) (ws : Nat → Str) :
    PrefixInv (generateInitialPlatforms g ws) := by
  intro p hp
  rw [generateInitialPlatforms_typed g ws p hp]
  exact List.nil_prefix

theorem prefixInv_reset (g : Game) (ws : Nat → Str) : PrefixInv (reset g ws) := by
  rw [reset]
  try dsimp only
  exact prefixInv_generateInitial _ ws

theorem prefixInv_generateMore (g : Game) (ws : Nat → Str) (h : PrefixInv g) :
    PrefixInv (generateMorePlatforms g ws) := by
  intro p hp
  rcases generateMorePlatforms_mem g ws p hp with hm | ht
  · exact h p hm
  · rw [ht]
    exact List.nil_prefix

theorem prefixInv_scrollMove (g : Game) (h : PrefixInv g) : PrefixInv (scrollMove g) := by
  have hkey : (scrollMove g).platforms = g.platforms ∨
      (scrollMove g).platforms = g.platforms.map
        (fun p => { p with y := p.y + (pixelStep g.scrollSpeed g.scrollAccumulator).2 }) := by
    rw [scrollMove]
    try dsimp only
    split <;> split
    · right; rfl
    · right; rfl
    · left; rfl
    · left; rfl
  intro p hp
  rcases hkey with hk | hk
  · rw [hk] at hp
    exact h p hp
  · rw [hk] at hp
    obtain ⟨q, hq, hfq⟩ := List.mem_map.mp hp
    rw [← hfq]
    exact h q hq

theorem prefixInv_cleanup (g : Game) (h : PrefixInv g) : PrefixInv (cleanupPlatforms g) := by
  intro p hp
  rw [cleanupPlatforms_platforms_eq, cleanupLoop_fst, List.nil_append] at hp
  exact h p (List.mem_filter.mp hp).1

theorem getD_mem_or_default (ps : List Platform) (idx : Nat) :
    ps.getD idx default ∈ ps ∨ ps.getD idx default = default := by
  by_cases hidx : idx < ps.length
  · left
    rw [List.getD_eq_getElem?_getD, List.getElem?_eq_getElem hidx]
    exact List.getElem_mem hidx
  · right
    exact List.getD_eq_default _ _ (by omega)

theorem prefixInv_platforms_set_typed (ps : List Platform) (idx : Nat) (key : Char)
    (h : ∀ p ∈ ps, strToLower p.typed <+: strToLower p.word)
    (hvalid : isValidChar (ps.getD idx default).word (ps.getD idx default).typed key = true) :
    ∀ p ∈ ps.set idx ({ (ps.getD idx default) with typed := (ps.getD idx default).typed ++ [key] }),
      strToLower p.typed <+: strToLower p.word := by
  intro p hp
  rcases List.mem_or_eq_of_mem_set hp with hm | heq
  · exact h p hm
  · obtain ⟨hlt, hc⟩ := isValidChar_true_facts _ _ _ hvalid
    rcases getD_mem_or_default ps idx with hcp | hdef
    · rw [heq]
      exact prefix_extend _ _ key (h _ hcp) hlt hc
    · exfalso
      rw [hdef] at hvalid
      rw [show (default : Platform).word = ([] : Str) from rfl,
        show (default : Platform).typed = ([] : Str) from rfl] at hvalid
      rw [isValidChar, if_pos (le_refl _)] at hvalid
      exact Bool.false_ne_true hvalid

theorem prefixInv_jump (g : Game) (ws : Nat → Str) (h : PrefixInv g) :
    PrefixInv (jumpToNextPlatform g ws) := by
  cases hfind : findNextPlatform g.platforms (g.platforms.getD g.player.platform default).y with
  | some j =>
    rw [jumpToNextPlatform_some g ws j hfind]
    exact h
  | none =>
    rw [jumpToNextPlatform_none g ws hfind]
    exact prefixInv_generateMore g ws h

theorem prefixInv_completeWord (g : Game) (e : ℚ) (ws : Nat → Str) (h : PrefixInv g) :
    PrefixInv (completeWord g e ws) := by
  rw [completeWord_spec]
  apply prefixInv_jump
  intro p hp
  rcases List.mem_or_eq_of_mem_set hp with hm | heq
  · exact h p hm
  · rcases getD_mem_or_default g.platforms g.player.platform with hcp | hdef
    · rw [heq]
      show strToLower (g.platforms.getD g.player.platform default).typed <+:
        strToLower (g.platforms.getD g.player.platform default).word
      exact h _ hcp
    · rw [heq, hdef]
      exact List.nil_prefix

theorem prefixInv_handleTyping (g : Game) (key : Char) (e : ℚ) (ws : Nat → Str)
    (h : PrefixInv g) : PrefixInv (handleTyping g key e ws) := by
  rw [handleTyping]
  try dsimp only
  by_cases h0 : g.platforms.length = 0
  · rw [if_pos h0]
    exact h
  · rw [if_neg h0]
    split
    · rename_i hvalid
      split
      · apply prefixInv_completeWord
        exact prefixInv_platforms_set_typed g.platforms g.player.platform key h hvalid
      · exact prefixInv_platforms_set_typed g.platforms g.player.platform key h hvalid
    · exact h

theorem prefixInv_handleBackspace (g : Game) (h : PrefixInv g) :
    PrefixInv (handleBackspace g) := by
  rw [handleBackspace]
  try dsimp only
  by_cases h0 : g.platforms.length = 0
  · rw [if_pos h0]
    exact h
  · rw [if_neg h0]
    split
    · intro p hp
      rcases List.mem_or_eq_of_mem_set hp with hm | heq
      · exact h p hm
      · rcases getD_mem_or_default g.platforms g.player.platform with hcp | hdef
        · rw [heq]
          exact prefix_dropLast _ _ (h _ hcp)
        · rw [heq, hdef]
          exact List.nil_prefix
    · exact h

theorem prefixInv_updateGameLogic (g : Game) (ws : Nat → Str) (h : PrefixInv g) :
    PrefixInv (updateGameLogic g ws) := by
  rw [updateGameLogic]
  try dsimp only
  split
  · exact prefixInv_scrollMove g h
  · exact prefixInv_cleanup _ (prefixInv_generateMore _ ws (prefixInv_scrollMove g h))

theorem prefixInv_processInput (g : Game) (key : Char) (e : ℚ) (ws : Nat → Str)
    (h : PrefixInv g) : PrefixInv (processInput g key e ws) := by
  cases hs : g.state with
  | menu =>
    simp only [processInput, hs]
    rw [processMenuInput]
    split
    · exact prefixInv_reset _ ws
    · split
      · exact h
      · split
        · exact h
        · exact h
  | playing =>
    simp only [processInput, hs]
    rw [processGameInput]
    split
    · exact h
    · split
      · exact prefixInv_handleBackspace g h
      · split
        · exact prefixInv_handleTyping g key e ws h
        · exact h
  | paused =>
    simp only [processInput, hs]
    rw [processPauseInput]
    split
    · exact h
    · split
      · exact h
      · exact h
  | gameOver =>
    simp only [processInput, hs]
    rw [processGameOverInput]
    split
    · exact prefixInv_reset _ ws
    · split
      · exact h
      · exact h

theorem prefixInv_render (g : Game) (ws : Nat → Str) (h : PrefixInv g) :
    PrefixInv (renderStep g ws) := by
  rw [renderStep]
  split
  · exact prefixInv_updateGameLogic g ws h
  · exact h

theorem prefixInv_start (width height : Int) (ws : Nat → Str) :
    PrefixInv (startGame width height ws) := by
  rw [startGame]
  try dsimp only
  exact prefixInv_reset _ ws

/-- C3 (amended): in every reachable state, each platform's typed buffer is a
case-insensitive prefix of its word; completion is set exactly when the buffer
matches the word, but a later backspace may still shorten the buffer of a
completed platform, so completeness does not pin the buffer forever. -/
theorem typed_prefix_invariant (g : Game) (hg : Reachable g) :
    ∀ p ∈ g.platforms, strToLower p.typed <+: strToLower p.word := by
  induction hg with
  | start width height ws => exact prefixInv_start width height ws
  | input g0 key e ws hr ih => exact prefixInv_processInput g0 key e ws ih
  | render g0 ws hr ih => exact prefixInv_render g0 ws ih

/-- Witness for the amended C3 at the started 80x24 game. -/
theorem typed_prefix_invariant_witness :
    strToLower ((startGame 80 24 wsA).platforms.getD 0 default).typed <+:
      strToLower ((startGame 80 24 wsA).platforms.getD 0 default).word :=
  typed_prefix_invariant (startGame 80 24 wsA) (Reachable.start 80 24 wsA) _ (by decide)

/-- The input script that strands the player on a completed platform: start the
game, type the single-letter word 15 times (climbing to the top platform, whose
completion finds no incomplete platform above and only generates new ones), then
press backspace on the completed platform. -/
def cexInputs : List Char := ' ' :: (List.replicate 15 'a' ++ [Char.ofNat 8])

/-- The game state after running cexInputs from a started 80x24 game. -/
def cexGame : Game := cexInputs.foldl stepA (startGame 80 24 wsA)

theorem reachable_foldl_stepA (l : List Char) :
    ∀ g : Game, Reachable g → Reachable (l.foldl stepA g) := by
  induction l with
  | nil => intro g hg; exact hg
  | cons k rest ih =>
    intro g hg
    rw [List.foldl_cons]
    exact ih _ (Reachable.input g k 0 wsA hg)

/-- Counterexample to C3 as stated: cexGame is reachable, its platform 14 is
complete, yet its typed buffer (emptied by the final backspace) no longer
equals its word case-insensitively, so a complete platform's typed field was
mutated after completion. -/
theorem complete_typed_mutated_counterexample :
    Reachable cexGame ∧
    (cexGame.platforms.getD 14 default).complete = true ∧
    strToLower (cexGame.platforms.getD 14 default).typed ≠
      strToLower (cexGame.platforms.getD 14 default).word :=
  ⟨reachable_foldl_stepA cexInputs _ (Reachable.start 80 24 wsA), by decide, by decide⟩

end Core
